import Mathlib

/-!
Verification of the Marstek Venus E device-communication layer: a shallow
embedding of the UDP JSON-RPC client (`udp_client.py`), the discovery
scanner, and the polling coordinator (`coordinator.py`), with theorems
settling the specification's claims about them.
-/

namespace Marstek

/-- Decoded JSON values as produced by `json.loads` on the vendor dialect.
Numbers are integers (the dialect uses integer ids, codes and powers). -/
inductive Json : Type where
  | jnull : Json
  | jbool (b : Bool) : Json
  | jnum (n : Int) : Json
  | jstr (s : String) : Json
  | jarr (elems : List Json) : Json
  | jobj (fields : List (String × Json)) : Json
  deriving Repr

/-- Python `d.get(k)` on a decoded JSON object: the value at key `k`, if the
value is a dict holding that key; `None` otherwise. -/
def Json.get? (j : Json) (k : String) : Option Json :=
  match j with
  | .jobj fields => fields.lookup k
  | _ => none

/-- Python `k in d`: key membership on a decoded JSON object. -/
def Json.hasKey (j : Json) (k : String) : Bool :=
  (j.get? k).isSome

/-- Python `d.get(k, default)`. -/
def Json.getD (j : Json) (k : String) (default : Json) : Json :=
  (j.get? k).getD default

/-- Python `==` between a decoded JSON value and an `int` (booleans compare
by numeric value in Python; other shapes are never equal to an int). -/
def Json.pyEqInt : Json → Int → Bool
  | .jnum m, n => m == n
  | .jbool true, n => n == 1
  | .jbool false, n => n == 0
  | _, _ => false

/-! ## Discovery scanner (`MarstekUDPClient.discover`)

The scan loop's per-datagram behaviour: decode as JSON, keep only payloads
passing the guard `"result" in payload` (Python containment on the decoded
value), deduplicate by source IP keeping the first reply. -/

/-- One device found by discovery: `(ip, port, parsed_json_response)`. -/
structure DiscoveredDevice where
  ip : String
  port : Nat
  payload : Json
  deriving Repr

/-- The `responses` dict of `discover`, keyed by source IP, in insertion
order (Python dicts preserve insertion order). -/
abbrev ResponsesDict := List (String × DiscoveredDevice)

/-- Whether one Python string starts with another, over character lists. -/
def pyStrStartsWith : List Char → List Char → Bool
  | [], _ => true
  | _ :: _, [] => false
  | a :: as, b :: bs => a == b && pyStrStartsWith as bs

/-- Python `needle in hay` on two `str` values: substring containment,
over the character lists of the two strings. -/
def pyStrIn (needle : List Char) : List Char → Bool
  | [] => pyStrStartsWith needle []
  | c :: cs => pyStrStartsWith needle (c :: cs) || pyStrIn needle cs

/-- The guard `"result" in payload` of the scan loop (udp_client.py line
312), as Python evaluates `in` on the decoded JSON value: on a dict, key
membership; on a str, substring containment; on a list, membership — some
element compares `==` to the string `"result"`, which for a decoded JSON
element holds exactly when it is that very string; on a number, a boolean
or `None`, `in` raises `TypeError`, which the per-datagram
`except Exception` handler (udp_client.py lines 324-325) swallows, so the
datagram is logged and dropped — observably the same as a false guard. -/
def discoverKeeps : Json → Bool
  | .jobj fields => (fields.lookup "result").isSome
  | .jstr s => pyStrIn "result".data s.data
  | .jarr elems => elems.any (fun e =>
      match e with
      | .jstr t => t == "result"
      | _ => false)
  | _ => false

/-- Processing of one received, JSON-decoded datagram inside the scan loop
of `discover` (udp_client.py lines 306-325): insert it when
`"result" in payload` holds and its source IP was not seen before; a
payload failing the guard (or on which `in` raises, swallowed by the
per-datagram handler) and a duplicate IP both leave `responses`
unchanged. -/
def discoverStep (responses : ResponsesDict) (addr : String × Nat) (payload : Json) :
    ResponsesDict :=
  if discoverKeeps payload then
    if (responses.lookup addr.1).isSome then responses
    else responses ++ [(addr.1, ⟨addr.1, addr.2, payload⟩)]
  else responses

/-- The `responses` dict built from the sequence of decoded datagrams
received during one scan window. -/
def discoverCollect (replies : List ((String × Nat) × Json)) : ResponsesDict :=
  replies.foldl (fun acc ev => discoverStep acc ev.1 ev.2) []

/-- `list(responses.values())`: the devices `discover` returns for a given
sequence of received replies (absent any fatal scan-loop failure). -/
def discoverDevices (replies : List ((String × Nat) × Json)) : List DiscoveredDevice :=
  (discoverCollect replies).map Prod.snd

/-- Everything observable by the scan loop of `discover`, in order:
probe broadcasts (which may fail and are only logged), received datagrams
(decoded, undecodable, or parse failures), receive timeouts, socket errors
(all swallowed by the loop), and a fatal error escaping the loop body into
the outer `except Exception` handler. -/
inductive ScanEvent : Type where
  | sendOk : ScanEvent
  | sendFail : ScanEvent
  | recv (addr : String × Nat) (payload : Json) : ScanEvent
  | recvBadJson : ScanEvent
  | recvParseIssue : ScanEvent
  | recvTimeout : ScanEvent
  | sockErr : ScanEvent
  | fatal : ScanEvent
  deriving Repr

/-- The received decoded datagrams of a scan trace. -/
def recvReplies : List ScanEvent → List ((String × Nat) × Json)
  | [] => []
  | .recv addr payload :: rest => (addr, payload) :: recvReplies rest
  | _ :: rest => recvReplies rest

/-- The scan loop of `discover`: non-fatal events are handled in place
(logged and skipped), a fatal error aborts the loop exceptionally. -/
def discoverLoop (acc : ResponsesDict) : List ScanEvent → Except Unit ResponsesDict
  | [] => .ok acc
  | .fatal :: _ => .error ()
  | .recv addr payload :: rest => discoverLoop (discoverStep acc addr payload) rest
  | _ :: rest => discoverLoop acc rest

/-- Outcome of one `discover` call: the returned device list, whether the
socket was closed before returning, and whether an exception escaped to
the caller. -/
structure DiscoverOutcome where
  devices : List DiscoveredDevice
  socketClosed : Bool
  raised : Bool
  deriving Repr

/-- `MarstekUDPClient.discover` as a whole (udp_client.py lines 275-347):
a failed bind to the fixed port is only logged (`bindOk` does not alter the
result), the outer `except Exception` handler maps any fatal scan-loop
failure to an empty list, and the `finally` block closes the socket on
every path. -/
def discover (_bindOk : Bool) (events : List ScanEvent) : DiscoverOutcome :=
  match discoverLoop [] events with
  | .ok responses => ⟨responses.map Prod.snd, true, false⟩
  | .error _ => ⟨[], true, false⟩

/-! ## Polling coordinator (`MarstekDataUpdateCoordinator`) -/

/-- The coordinator's mutable state: the primary periodic snapshot
(`self.data`), the two on-demand endpoint slices (`self.battery_data`,
`self.mode_data`), and a count of listener notifications issued via
`async_update_listeners`. -/
structure MarstekDataUpdateCoordinator where
  data : Json
  battery_data : Json
  mode_data : Json
  listener_updates : Nat
  deriving Repr

/-- `MarstekDataUpdateCoordinator.refresh_battery_data` on a successful
`Bat.GetStatus` call returning `response`: store the battery slice, notify
listeners, return the slice. -/
def refresh_battery_data (c : MarstekDataUpdateCoordinator) (response : Json) :
    MarstekDataUpdateCoordinator × Json :=
  let c1 := { c with battery_data := response, listener_updates := c.listener_updates + 1 }
  (c1, c1.battery_data)

/-- `MarstekDataUpdateCoordinator.refresh_mode_data` on a successful
`ES.GetMode` call returning `response`. -/
def refresh_mode_data (c : MarstekDataUpdateCoordinator) (response : Json) :
    MarstekDataUpdateCoordinator × Json :=
  let c1 := { c with mode_data := response, listener_updates := c.listener_updates + 1 }
  (c1, c1.mode_data)

/-! ## Clear all schedules -/

/-- Outcome of one schedule-set RPC against the device: a `result` map, or
an RPC error raised as an exception. -/
inductive RpcOutcome : Type where
  | ok (result : Json) : RpcOutcome
  | rpcError (code : Int) (message : String) : RpcOutcome
  deriving Repr

/-- Whether a slot's schedule-set call succeeded. -/
def RpcOutcome.isOk : RpcOutcome → Bool
  | .ok _ => true
  | .rpcError _ _ => false

/-- The result dictionary of the clear-all-schedules bulk operation, with
the keys its callers read (`success_count`, `total_slots`, `failed_slots`,
see config_flow.py lines 256-260 and services.py lines 237-238). -/
structure ClearSchedulesResult where
  success_count : Nat
  total_slots : Nat
  failed_slots : List Nat
  deriving Repr

/-- One iteration of the clear-all loop: issue the slot's schedule-set
call, count it, and record the slot as succeeded or failed; the trace of
slots called grows either way (a failure never aborts the loop). -/
def clearSlotStep (rpc : Nat → RpcOutcome) (acc : ClearSchedulesResult × List Nat)
    (slot : Nat) : ClearSchedulesResult × List Nat :=
  match rpc slot with
  | .ok _ =>
      ({ acc.1 with
          success_count := acc.1.success_count + 1
          total_slots := acc.1.total_slots + 1 }, acc.2 ++ [slot])
  | .rpcError _ _ =>
      ({ acc.1 with
          total_slots := acc.1.total_slots + 1
          failed_slots := acc.1.failed_slots ++ [slot] }, acc.2 ++ [slot])

/-- Modelled from the spec: `MarstekUDPClient.clear_all_manual_schedules`
is invoked by the coordinator (coordinator.py line 129) and the config flow
(config_flow.py line 255) but its definition is not among the available
sources. Per spec section 4.5 it disables slots 0-9 sequentially, one
schedule-set call per slot, never aborting on a single slot's failure,
accumulating per-slot success/failure, and returns the tuple
(succeeded count, total count, failed slot indices). `rpc slot` is the
device's outcome for that slot's schedule-set call; the second component
of the result is the trace of slots called, in order. -/
def clear_all_manual_schedules (rpc : Nat → RpcOutcome) :
    ClearSchedulesResult × List Nat :=
  (List.range 10).foldl (clearSlotStep rpc) (⟨0, 0, []⟩, [])

/-! ## Transport session (`MarstekUDPClient` and `_UDPClientProtocol`)

One RPC call: build payload with a fresh id, then up to `max_attempts`
attempts; each attempt opens a fresh socket, sends the payload, and waits
on the protocol's response future with a per-attempt timeout. -/

/-- The client object: constructor arguments (udp_client.py lines 15-26)
plus the `_request_id` counter, which starts at 0. The timeout is a float
in the source, modelled as a rational. -/
structure MarstekUDPClient where
  ip_address : String
  port : Nat := 30000
  timeout : ℚ := 5
  request_id : Nat := 0
  deriving Repr

/-- `MarstekUDPClient._get_next_id`: increment the counter and return it. -/
def _get_next_id (c : MarstekUDPClient) : MarstekUDPClient × Nat :=
  let c1 := { c with request_id := c.request_id + 1 }
  (c1, c1.request_id)

/-- Exceptions a `_UDPClientProtocol` future can be failed with: a JSON
decode failure in `datagram_received`, or a transport error delivered via
`error_received`. -/
inductive TransportError : Type where
  | decodeError : TransportError
  | connectionError : TransportError
  deriving Repr, DecidableEq

/-- The state of the protocol's `_response_future`. -/
inductive FutureState : Type where
  | pending : FutureState
  | result (r : Json) : FutureState
  | exc (e : TransportError) : FutureState
  deriving Repr

/-- `_UDPClientProtocol.datagram_received` (udp_client.py lines 362-379)
acting on the future. The datagram is given JSON-decoded: `none` stands
for bytes `json.loads` rejects, on which the future is failed with the
decode error. An id check guards delivery: only a dict whose `id` value
compares `==`-equal to `expected_id` resolves the future; a mismatched id
is only logged. A non-dict payload makes `response.get` raise an
`AttributeError` that escapes the callback and is swallowed by the event
loop, leaving the future untouched; likewise, once the future is done any
further `set_result`/`set_exception` raises `InvalidStateError`, which is
also swallowed, so a completed future never changes. -/
def datagram_received (expected_id : Nat) (st : FutureState) (datagram : Option Json) :
    FutureState :=
  match st with
  | .pending =>
    match datagram with
    | none => .exc .decodeError
    | some response =>
      match response with
      | .jobj _ =>
        match response.get? "id" with
        | some v => if v.pyEqInt expected_id then .result response else .pending
        | none => .pending
      | _ => .pending
  | done => done

/-- The future after a sequence of datagrams has been received. -/
def runDatagrams (expected_id : Nat) (st : FutureState) (datagrams : List (Option Json)) :
    FutureState :=
  datagrams.foldl (datagram_received expected_id) st

/-- What one `_send_request` call produces for its caller. -/
inductive CallOutcome : Type where
  | ok (result : Json) : CallOutcome
  | rpcError (error : Json) : CallOutcome
  | decodeError : CallOutcome
  | connectionError : CallOutcome
  | timeoutError : CallOutcome
  deriving Repr

/-- Lines 81-89 of udp_client.py: a delivered response carrying an `error`
key raises an RPC error built from `response.get("error", ...)`; otherwise
the call returns `response.get("result", ...)` with an empty dict as the
default. -/
def processResponse (response : Json) : CallOutcome :=
  if response.hasKey "error" then .rpcError (response.getD "error" (Json.jobj []))
  else .ok (response.getD "result" (Json.jobj []))

/-- One attempt of the retry loop: the datagrams that arrive before the
per-attempt timeout drive the future; a resolved future yields a terminal
outcome (also terminal on its retry path: decode and connection errors are
re-raised by the bare `except Exception` handler at line 109); a still
pending future means `asyncio.wait_for` raised `TimeoutError` and the
attempt produces no outcome. -/
def attemptOutcome (expected_id : Nat) (datagrams : List (Option Json)) :
    Option CallOutcome :=
  match runDatagrams expected_id .pending datagrams with
  | .result r => some (processResponse r)
  | .exc .decodeError => some .decodeError
  | .exc .connectionError => some .connectionError
  | .pending => none

/-- The `for attempt in range(1, max_attempts + 1)` loop of `_send_request`
(lines 61-111) over the per-attempt datagram windows, recording every
payload sent: the payload is built once before the loop and the same bytes
are resent on retry. Timing out with no windows left raises
`asyncio.TimeoutError` to the caller. -/
def runAttempts (expected_id : Nat) (payload : Json) :
    List (List (Option Json)) → CallOutcome × List Json
  | [] => (.timeoutError, [])
  | window :: rest =>
    match attemptOutcome expected_id window with
    | some out => (out, [payload])
    | none =>
      let tail := runAttempts expected_id payload rest
      (tail.1, payload :: tail.2)

/-- The JSON-RPC payload of `_send_request` (lines 50-56): always `id` and
`method`; `params` only when truthy — `if params:` drops both `None` and
an empty dict. -/
def sendRequest_payload (request_id : Nat) (method : String)
    (params : Option (List (String × Json))) : Json :=
  Json.jobj ([("id", Json.jnum request_id), ("method", Json.jstr method)] ++
    (match params with
     | none => []
     | some [] => []
     | some fields => [("params", Json.jobj fields)]))

/-- Line 60 of udp_client.py: `max_attempts = 2`, a local constant of
`_send_request` — it depends on nothing the caller passes. -/
def sendRequest_max_attempts (_c : MarstekUDPClient) (_method : String)
    (_params : Option (List (String × Json))) : Nat := 2

/-- The per-attempt timeout handed to `asyncio.wait_for` (lines 64-77):
the client's `timeout` attribute. -/
def sendRequest_attempt_timeout (c : MarstekUDPClient) : ℚ := c.timeout

/-- `MarstekUDPClient._send_request`: draw the next id, build the payload
once, then run the bounded attempt loop. `events n` gives the datagrams
arriving within attempt `n`'s timeout window. Returns the updated client,
the call outcome, and the trace of payloads sent (one per attempt made). -/
def _send_request (c : MarstekUDPClient) (method : String)
    (params : Option (List (String × Json))) (events : Nat → List (Option Json)) :
    MarstekUDPClient × CallOutcome × List Json :=
  let idPair := _get_next_id c
  let payload := sendRequest_payload idPair.2 method params
  let windows := (List.range (sendRequest_max_attempts c method params)).map
    (fun a => events (a + 1))
  let run := runAttempts idPair.2 payload windows
  (idPair.1, run.1, run.2)

/-- The ids carried by `n` successive requests issued by one client
(each `_send_request` calls `_get_next_id` exactly once). -/
def session_request_ids : MarstekUDPClient → Nat → List Nat
  | _, 0 => []
  | c, n + 1 =>
    let idPair := _get_next_id c
    idPair.2 :: session_request_ids idPair.1 n

/-! ## Wire codec

`json.dumps(payload)` / `json.loads(data)` on the dialect's values, at the
character level. The encoder mirrors CPython's `json.dumps` defaults
(`ensure_ascii=True`, separators `", "` and `": "`); the decoder mirrors
`json.loads` (strict mode) on the integer-numbered subset. -/

/-- The decimal digit character for `d < 10`. -/
def digitChar (d : Nat) : Char := Char.ofNat (48 + d)

/-- Decimal digits of `n`, most significant first, onto `acc`; the fuel is
an upper bound on `n`, so `serNatAcc n n []` is exact. -/
def serNatAcc : Nat → Nat → List Char → List Char
  | 0, _, acc => acc
  | fuel + 1, n, acc =>
    if n = 0 then acc else serNatAcc fuel (n / 10) (digitChar (n % 10) :: acc)

/-- The decimal representation of a natural number, as Python prints it. -/
def serNat (n : Nat) : List Char := if n = 0 then ['0'] else serNatAcc n n []

/-- The decimal representation of an integer, as Python prints it. -/
def serInt : Int → List Char
  | .ofNat n => serNat n
  | .negSucc m => '-' :: serNat (m + 1)

/-- Lowercase hexadecimal digit for `d < 16` (Python's `%04x`). -/
def hexChar (d : Nat) : Char :=
  if d < 10 then Char.ofNat (48 + d) else Char.ofNat (87 + d)

/-- Four lowercase hex digits of `n % 65536`. -/
def hex4 (n : Nat) : List Char :=
  [hexChar (n / 4096 % 16), hexChar (n / 256 % 16), hexChar (n / 16 % 16), hexChar (n % 16)]

/-- CPython's `py_encode_basestring_ascii` on one character: the two-char
escapes for quote, backslash, backspace, tab, newline, formfeed, carriage
return; printable ASCII kept as is; everything else as `\uXXXX`, with a
surrogate pair above the basic plane. -/
def escapeChar (c : Char) : List Char :=
  if c = '\"' then ['\\', '\"']
  else if c = '\\' then ['\\', '\\']
  else if c.toNat = 8 then ['\\', 'b']
  else if c.toNat = 9 then ['\\', 't']
  else if c.toNat = 10 then ['\\', 'n']
  else if c.toNat = 12 then ['\\', 'f']
  else if c.toNat = 13 then ['\\', 'r']
  else if 32 ≤ c.toNat ∧ c.toNat ≤ 126 then [c]
  else if c.toNat < 65536 then '\\' :: 'u' :: hex4 c.toNat
  else ('\\' :: 'u' :: hex4 (55296 + (c.toNat - 65536) / 1024)) ++
    ('\\' :: 'u' :: hex4 (56320 + (c.toNat - 65536) % 1024))

/-- The escaped body of a JSON string literal. -/
def escapeString : List Char → List Char
  | [] => []
  | c :: cs => escapeChar c ++ escapeString cs

mutual

/-- `json.dumps` with its default separators, as a character list. -/
def serValue : Json → List Char
  | .jnull => ['n', 'u', 'l', 'l']
  | .jbool true => ['t', 'r', 'u', 'e']
  | .jbool false => ['f', 'a', 'l', 's', 'e']
  | .jnum n => serInt n
  | .jstr s => '\"' :: (escapeString s.data ++ ['\"'])
  | .jarr [] => ['[', ']']
  | .jarr (e :: es) => '[' :: (serValue e ++ serElems es ++ [']'])
  | .jobj [] => ['\x7b', '\x7d']
  | .jobj (f :: fs) => '\x7b' :: (serMember f ++ serMembers fs ++ ['\x7d'])

/-- One `"key": value` member. -/
def serMember : String × Json → List Char
  | (k, v) => '\"' :: (escapeString k.data ++ ['\"', ':', ' '] ++ serValue v)

/-- The remaining members, each preceded by the `", "` separator. -/
def serMembers : List (String × Json) → List Char
  | [] => []
  | f :: fs => ',' :: ' ' :: (serMember f ++ serMembers fs)

/-- The remaining array elements, each preceded by `", "`. -/
def serElems : List Json → List Char
  | [] => []
  | e :: es => ',' :: ' ' :: (serValue e ++ serElems es)

end

/-- `json.dumps` as a string (the UTF-8 encoding of this string is what
`transport.sendto` puts on the wire, line 72 of udp_client.py). -/
def json_dumps (j : Json) : String := String.mk (serValue j)

mutual

/-- Structure size of a JSON value; a lower bound on the parser fuel that
suffices to reparse it. -/
def jsize : Json → Nat
  | .jobj fs => jsizeMembers fs + 1
  | .jarr es => jsizeElems es + 1
  | _ => 1

/-- Size of object members. -/
def jsizeMembers : List (String × Json) → Nat
  | [] => 0
  | f :: fs => jsize f.2 + 1 + jsizeMembers fs

/-- Size of array elements. -/
def jsizeElems : List Json → Nat
  | [] => 0
  | e :: es => jsize e + 1 + jsizeElems es

end

/-- JSON whitespace. -/
def isJsonWs (c : Char) : Bool :=
  c = ' ' || c = '\t' || c = '\n' || c = '\r'

/-- Drop leading JSON whitespace. -/
def skipWs : List Char → List Char
  | [] => []
  | c :: cs => if isJsonWs c then skipWs cs else c :: cs

/-- Value of a decimal digit character. -/
def digitVal (c : Char) : Option Nat :=
  if 48 ≤ c.toNat ∧ c.toNat ≤ 57 then some (c.toNat - 48) else none

/-- Value of a hexadecimal digit character, either case. -/
def hexVal (c : Char) : Option Nat :=
  if 48 ≤ c.toNat ∧ c.toNat ≤ 57 then some (c.toNat - 48)
  else if 97 ≤ c.toNat ∧ c.toNat ≤ 102 then some (c.toNat - 87)
  else if 65 ≤ c.toNat ∧ c.toNat ≤ 70 then some (c.toNat - 55)
  else none

/-- Four hex digits as a number. -/
def hex4val (a b c d : Char) : Option Nat :=
  match hexVal a, hexVal b, hexVal c, hexVal d with
  | some x, some y, some z, some w => some (((x * 16 + y) * 16 + z) * 16 + w)
  | _, _, _, _ => none

/-- Prepend a character to the string being parsed. -/
def consFst (c : Char) : Option (List Char × List Char) → Option (List Char × List Char)
  | some p => some (c :: p.1, p.2)
  | none => none

/-- Consume a maximal run of decimal digits, Horner-style. -/
def parseNatDigits : Nat → List Char → Nat × List Char
  | acc, [] => (acc, [])
  | acc, c :: cs =>
    match digitVal c with
    | some d => parseNatDigits (acc * 10 + d) cs
    | none => (acc, c :: cs)

/-- One escape sequence after a backslash, as `json.loads` decodes it: the
decoded character and the remaining input. The standard two-character
escapes, `\uXXXX`, and surrogate pairs; a lone surrogate escape is
rejected (a Lean character cannot carry one; the encoder never produces
one). -/
def decodeEscape : List Char → Option (Char × List Char)
  | [] => none
  | e :: cs =>
    if e = '\"' then some ('\"', cs)
    else if e = '\\' then some ('\\', cs)
    else if e = '/' then some ('/', cs)
    else if e = 'b' then some (Char.ofNat 8, cs)
    else if e = 'f' then some (Char.ofNat 12, cs)
    else if e = 'n' then some (Char.ofNat 10, cs)
    else if e = 'r' then some (Char.ofNat 13, cs)
    else if e = 't' then some (Char.ofNat 9, cs)
    else if e = 'u' then
      match cs with
      | a :: b :: c :: d :: rest =>
        match hex4val a b c d with
        | none => none
        | some n =>
          if 55296 ≤ n ∧ n ≤ 56319 then
            match rest with
            | e2 :: u2 :: a2 :: b2 :: c2 :: d2 :: rest2 =>
              if e2 = '\\' ∧ u2 = 'u' then
                match hex4val a2 b2 c2 d2 with
                | some m =>
                  if 56320 ≤ m ∧ m ≤ 57343 then
                    some (Char.ofNat (65536 + (n - 55296) * 1024 + (m - 56320)), rest2)
                  else none
                | none => none
              else none
            | _ => none
          else if 56320 ≤ n ∧ n ≤ 57343 then none
          else some (Char.ofNat n, rest)
      | _ => none
    else none

/-- `json.loads`'s scanner for the body of a string literal, after the
opening quote: strict mode (raw control characters rejected). The fuel is
structural; one unit per decoded character suffices, and call sites pass
the input length plus one. -/
def parseStringBody : Nat → List Char → Option (List Char × List Char)
  | 0, _ => none
  | _ + 1, [] => none
  | fuel + 1, c :: cs =>
    if c = '\"' then some ([], cs)
    else if c = '\\' then
      match decodeEscape cs with
      | some p => consFst p.1 (parseStringBody fuel p.2)
      | none => none
    else if c.toNat < 32 then none
    else consFst c (parseStringBody fuel cs)

mutual

/-- `json.loads`'s recursive-descent value scanner on the integer-numbered
subset, with a structural fuel. -/
def parseValue : Nat → List Char → Option (Json × List Char)
  | 0, _ => none
  | _ + 1, [] => none
  | fuel + 1, c :: cs =>
    if c = '\"' then
      match parseStringBody (cs.length + 1) cs with
      | some p => some (.jstr (String.mk p.1), p.2)
      | none => none
    else if c = '\x7b' then
      match skipWs cs with
      | d :: cs2 =>
        if d = '\x7d' then some (.jobj [], cs2)
        else
          match parseMembers fuel (d :: cs2) with
          | some p => some (.jobj p.1, p.2)
          | none => none
      | [] => none
    else if c = '[' then
      match skipWs cs with
      | d :: cs2 =>
        if d = ']' then some (.jarr [], cs2)
        else
          match parseElems fuel (d :: cs2) with
          | some p => some (.jarr p.1, p.2)
          | none => none
      | [] => none
    else if c = 'n' then
      match cs with
      | x1 :: x2 :: x3 :: rest =>
        if x1 = 'u' ∧ x2 = 'l' ∧ x3 = 'l' then some (.jnull, rest) else none
      | _ => none
    else if c = 't' then
      match cs with
      | x1 :: x2 :: x3 :: rest =>
        if x1 = 'r' ∧ x2 = 'u' ∧ x3 = 'e' then some (.jbool true, rest) else none
      | _ => none
    else if c = 'f' then
      match cs with
      | x1 :: x2 :: x3 :: x4 :: rest =>
        if x1 = 'a' ∧ x2 = 'l' ∧ x3 = 's' ∧ x4 = 'e' then some (.jbool false, rest) else none
      | _ => none
    else if c = '-' then
      match cs with
      | c2 :: rest =>
        match digitVal c2 with
        | some d =>
          let p := parseNatDigits d rest
          some (.jnum (-(p.1 : Int)), p.2)
        | none => none
      | [] => none
    else
      match digitVal c with
      | some d =>
        let p := parseNatDigits d cs
        some (.jnum (p.1 : Int), p.2)
      | none => none

/-- A nonempty run of object members up to the closing brace. -/
def parseMembers : Nat → List Char → Option (List (String × Json) × List Char)
  | 0, _ => none
  | fuel + 1, cs =>
    match cs with
    | c :: cs1 =>
      if c = '\"' then
        match parseStringBody (cs1.length + 1) cs1 with
        | some kp =>
          match skipWs kp.2 with
          | d :: cs2 =>
            if d = ':' then
              match parseValue fuel (skipWs cs2) with
              | some vp =>
                match skipWs vp.2 with
                | s :: cs3 =>
                  if s = ',' then
                    match parseMembers fuel (skipWs cs3) with
                    | some fp => some ((String.mk kp.1, vp.1) :: fp.1, fp.2)
                    | none => none
                  else if s = '\x7d' then some ([(String.mk kp.1, vp.1)], cs3)
                  else none
                | [] => none
              | none => none
            else none
          | [] => none
        | none => none
      else none
    | [] => none

/-- A nonempty run of array elements up to the closing bracket. -/
def parseElems : Nat → List Char → Option (List Json × List Char)
  | 0, _ => none
  | fuel + 1, cs =>
    match parseValue fuel cs with
    | some vp =>
      match skipWs vp.2 with
      | s :: cs3 =>
        if s = ',' then
          match parseElems fuel (skipWs cs3) with
          | some ep => some (vp.1 :: ep.1, ep.2)
          | none => none
        else if s = ']' then some ([vp.1], cs3)
        else none
      | [] => none
    | none => none

end

/-- `json.loads`: skip surrounding whitespace, parse one value, and reject
trailing garbage. The fuel exceeds the input length, which suffices for
any value the encoder can print. -/
def json_loads (s : String) : Option Json :=
  match parseValue (s.data.length + 1) (skipWs s.data) with
  | some p => if skipWs p.2 = [] then some p.1 else none
  | none => none

/-- The encoded wire bytes of one request, as a string: `json.dumps` of
the payload `_send_request` builds. -/
def encodeRequest (request_id : Nat) (method : String)
    (params : Option (List (String × Json))) : String :=
  json_dumps (sendRequest_payload request_id method params)

/-! ## Codec round-trip: helper lemmas -/

theorem char_toNat_ofNat (n : Nat) (h : n.isValidChar) : (Char.ofNat n).toNat = n := by
  simp only [Char.ofNat, dif_pos h, Char.ofNatAux, Char.toNat, UInt32.toNat, BitVec.toNat_ofNatLt]

theorem char_ofNat_toNat (c : Char) : Char.ofNat c.toNat = c := by
  have h : c.toNat.isValidChar := c.valid
  apply Char.ext
  simp only [Char.ofNat, dif_pos h, Char.ofNatAux]
  apply UInt32.ext
  simp [Char.toNat, UInt32.toNat]

theorem char_valid_range (c : Char) :
    c.toNat < 55296 ∨ 57343 < c.toNat ∧ c.toNat < 1114112 := c.valid

theorem char_eq_iff_toNat (c d : Char) : c = d ↔ c.toNat = d.toNat := by
  constructor
  · intro h; rw [h]
  · intro h
    have h1 := char_ofNat_toNat c
    rw [h, char_ofNat_toNat d] at h1
    exact h1.symm

theorem hexVal_hexChar (d : Nat) (h : d < 16) : hexVal (hexChar d) = some d := by
  interval_cases d <;> decide

theorem digitVal_digitChar (d : Nat) (h : d < 10) : digitVal (digitChar d) = some d := by
  interval_cases d <;> decide

theorem hex4val_eval (n : Nat) (h : n < 65536) :
    hex4val (hexChar (n / 4096 % 16)) (hexChar (n / 256 % 16))
      (hexChar (n / 16 % 16)) (hexChar (n % 16)) = some n := by
  unfold hex4val
  rw [hexVal_hexChar _ (Nat.mod_lt _ (by norm_num)),
    hexVal_hexChar _ (Nat.mod_lt _ (by norm_num)),
    hexVal_hexChar _ (Nat.mod_lt _ (by norm_num)),
    hexVal_hexChar _ (Nat.mod_lt _ (by norm_num))]
  exact congrArg some (by omega)

theorem parseStringBody_backslash (f : Nat) (tail : List Char) :
    parseStringBody (f + 1) ('\\' :: tail) =
      (match decodeEscape tail with
       | some p => consFst p.1 (parseStringBody f p.2)
       | none => none) := by
  simp [parseStringBody]

theorem decodeEscape_bmp (n : Nat) (tail : List Char) (h16 : n < 65536)
    (hs1 : ¬ (55296 ≤ n ∧ n ≤ 56319)) (hs2 : ¬ (56320 ≤ n ∧ n ≤ 57343)) :
    decodeEscape ('u' :: (hex4 n ++ tail)) = some (Char.ofNat n, tail) := by
  simp [decodeEscape, hex4, hex4val_eval n h16, hs1, hs2]

theorem decodeEscape_surrogate (n m : Nat) (tail : List Char)
    (hn16 : n < 65536) (hm16 : m < 65536)
    (hn : 55296 ≤ n ∧ n ≤ 56319) (hm : 56320 ≤ m ∧ m ≤ 57343) :
    decodeEscape ('u' :: (hex4 n ++ ('\\' :: 'u' :: (hex4 m ++ tail)))) =
      some (Char.ofNat (65536 + (n - 55296) * 1024 + (m - 56320)), tail) := by
  simp [decodeEscape, hex4, hex4val_eval n hn16, hex4val_eval m hm16, hn, hm]

theorem escapeString_length_ge (l : List Char) : l.length ≤ (escapeString l).length := by
  induction l with
  | nil => simp [escapeString]
  | cons c cs ih =>
    have h1 : 1 ≤ (escapeChar c).length := by
      unfold escapeChar
      split_ifs <;> simp [hex4]
    simp only [escapeString, List.length_append, List.length_cons]
    omega

/-- After a serialized number the input must not continue with a digit, or
the scanner would absorb it into the number. -/
def headNotDigit : List Char → Prop
  | [] => True
  | c :: _ => c.toNat < 48 ∨ 57 < c.toNat

theorem char_ne_of_toNat_ne (c d : Char) (h : c.toNat ≠ d.toNat) : ¬ c = d := by
  intro he
  rw [char_eq_iff_toNat] at he
  exact h he

theorem char_ne_of_digit_range (c : Char) (hb : 48 ≤ c.toNat ∧ c.toNat ≤ 57) (d : Char)
    (hd : d.toNat < 48 ∨ 57 < d.toNat) : ¬ c = d :=
  char_ne_of_toNat_ne c d (by omega)

theorem char_ne_of_ge_33 (c : Char) (h : 33 ≤ c.toNat) (d : Char) (hd : d.toNat < 33) :
    ¬ c = d :=
  char_ne_of_toNat_ne c d (by omega)

theorem parseNatDigits_stop (acc : Nat) (rest : List Char) (h : headNotDigit rest) :
    parseNatDigits acc rest = (acc, rest) := by
  cases rest with
  | nil => rfl
  | cons c cs =>
    simp only [headNotDigit] at h
    have hd : digitVal c = none := by
      unfold digitVal
      rw [if_neg (by omega)]
    simp [parseNatDigits, hd]

theorem parseNatDigits_run (ds : List Nat) :
    ∀ (acc : Nat) (rest : List Char), (∀ d ∈ ds, d < 10) → headNotDigit rest →
      parseNatDigits acc (ds.map digitChar ++ rest) =
        (acc * 10 ^ ds.length + Nat.ofDigits 10 ds.reverse, rest) := by
  induction ds with
  | nil =>
    intro acc rest _ hr
    simp [parseNatDigits_stop acc rest hr, Nat.ofDigits_nil]
  | cons d ds ih =>
    intro acc rest hlt hr
    have hd : d < 10 := hlt d (by simp)
    have hds : ∀ x ∈ ds, x < 10 := fun x hx => hlt x (by simp [hx])
    simp only [List.map_cons, List.cons_append]
    rw [parseNatDigits, digitVal_digitChar d hd]
    show parseNatDigits (acc * 10 + d) (List.map digitChar ds ++ rest) = _
    rw [ih (acc * 10 + d) rest hds hr]
    have harith : (acc * 10 + d) * 10 ^ ds.length + Nat.ofDigits 10 ds.reverse
        = acc * 10 ^ (ds.length + 1) + Nat.ofDigits 10 (ds.reverse ++ [d]) := by
      rw [Nat.ofDigits_append, Nat.ofDigits_singleton, List.length_reverse, pow_succ]
      ring
    simp [harith]

theorem serNatAcc_eq : ∀ (fuel n : Nat) (acc : List Char), n ≤ fuel →
    serNatAcc fuel n acc = (Nat.digits 10 n).reverse.map digitChar ++ acc := by
  intro fuel
  induction fuel with
  | zero =>
    intro n acc h
    interval_cases n
    simp [serNatAcc]
  | succ f ih =>
    intro n acc h
    by_cases h0 : n = 0
    · subst h0; simp [serNatAcc]
    · rw [serNatAcc, if_neg h0, ih (n / 10) _ (by omega),
        Nat.digits_def' (by norm_num : (1 : Nat) < 10) (Nat.pos_of_ne_zero h0)]
      simp

theorem serNat_eq (n : Nat) (h : n ≠ 0) :
    serNat n = (Nat.digits 10 n).reverse.map digitChar := by
  rw [serNat, if_neg h, serNatAcc_eq n n [] le_rfl, List.append_nil]

/-- Splitting a serialized natural number: a digit head and a tail that
the digit scanner folds back to the number. -/
theorem serNat_parse (n : Nat) (rest : List Char) (hr : headNotDigit rest) :
    ∃ c tl d, serNat n ++ rest = c :: tl ∧ digitVal c = some d ∧
      parseNatDigits d tl = (n, rest) ∧ 48 ≤ c.toNat ∧ c.toNat ≤ 57 := by
  by_cases h0 : n = 0
  · subst h0
    refine ⟨'0', rest, 0, by simp [serNat], by decide, parseNatDigits_stop 0 rest hr, by decide, by decide⟩
  · have hne : Nat.digits 10 n ≠ [] := Nat.digits_ne_nil_iff_ne_zero.mpr h0
    have hlt : ∀ d ∈ (Nat.digits 10 n).reverse, d < 10 := fun d hd =>
      Nat.digits_lt_base (by norm_num) (List.mem_reverse.mp hd)
    obtain ⟨d0, ds1, hds⟩ : ∃ d0 ds1, (Nat.digits 10 n).reverse = d0 :: ds1 := by
      cases hr2 : (Nat.digits 10 n).reverse with
      | nil => exact absurd (by simpa using congrArg List.reverse hr2) hne
      | cons a b => exact ⟨a, b, rfl⟩
    have hd0 : d0 < 10 := hlt d0 (by simp [hds])
    have hds1 : ∀ x ∈ ds1, x < 10 := fun x hx => hlt x (by simp [hds, hx])
    have hval : d0 * 10 ^ ds1.length + Nat.ofDigits 10 ds1.reverse = n := by
      have hdig : Nat.digits 10 n = ds1.reverse ++ [d0] := by
        have := congrArg List.reverse hds
        simpa using this
      have hofd := Nat.ofDigits_digits 10 n
      rw [hdig, Nat.ofDigits_append, Nat.ofDigits_singleton, List.length_reverse] at hofd
      rw [Nat.mul_comm]
      linarith [hofd]
    have htoNat : (digitChar d0).toNat = 48 + d0 := by
      have hv : (48 + d0).isValidChar := Or.inl (by omega)
      exact char_toNat_ofNat (48 + d0) hv
    refine ⟨digitChar d0, ds1.map digitChar ++ rest, d0, ?_, digitVal_digitChar d0 hd0, ?_, by omega, by omega⟩
    · rw [serNat_eq n h0, hds]
      simp
    · rw [parseNatDigits_run ds1 d0 rest hds1 hr, hval]

theorem parseValue_digit_head (fuel : Nat) (c : Char) (cs : List Char) (d : Nat)
    (h : digitVal c = some d) :
    parseValue (fuel + 1) (c :: cs) =
      some (.jnum ((parseNatDigits d cs).1 : Int), (parseNatDigits d cs).2) := by
  have hb : 48 ≤ c.toNat ∧ c.toNat ≤ 57 := by
    unfold digitVal at h
    by_cases hq : 48 ≤ c.toNat ∧ c.toNat ≤ 57
    · exact hq
    · rw [if_neg hq] at h; cases h
  have e1 : ¬ c = '\"' := char_ne_of_digit_range c hb _ (by decide)
  have e2 : ¬ c = '\x7b' := char_ne_of_digit_range c hb _ (by decide)
  have e3 : ¬ c = '[' := char_ne_of_digit_range c hb _ (by decide)
  have e4 : ¬ c = 'n' := char_ne_of_digit_range c hb _ (by decide)
  have e5 : ¬ c = 't' := char_ne_of_digit_range c hb _ (by decide)
  have e6 : ¬ c = 'f' := char_ne_of_digit_range c hb _ (by decide)
  have e7 : ¬ c = '-' := char_ne_of_digit_range c hb _ (by decide)
  simp [parseValue, e1, e2, e3, e4, e5, e6, e7, h]

/-- Parsing a serialized integer back. -/
theorem parseValue_serInt (fuel : Nat) (n : Int) (rest : List Char) (hr : headNotDigit rest) :
    parseValue (fuel + 1) (serInt n ++ rest) = some (.jnum n, rest) := by
  cases n with
  | ofNat m =>
    obtain ⟨c, tl, d, he, hd, hp, hb⟩ := serNat_parse m rest hr
    rw [show serInt (Int.ofNat m) = serNat m from rfl, he,
      parseValue_digit_head fuel c tl d hd, hp]
    simp
  | negSucc m =>
    obtain ⟨c, tl, d, he, hd, hp, hb⟩ := serNat_parse (m + 1) rest hr
    have hser : serInt (Int.negSucc m) ++ rest = '-' :: (serNat (m + 1) ++ rest) := by
      simp [serInt]
    rw [hser, he]
    simp [parseValue, hd, hp, Int.negSucc_eq]

theorem isJsonWs_false_of_ge (c : Char) (h : 33 ≤ c.toNat) : isJsonWs c = false := by
  have h1 : ¬ c = ' ' := char_ne_of_ge_33 c h _ (by decide)
  have h2 : ¬ c = '\t' := char_ne_of_ge_33 c h _ (by decide)
  have h3 : ¬ c = '\n' := char_ne_of_ge_33 c h _ (by decide)
  have h4 : ¬ c = '\r' := char_ne_of_ge_33 c h _ (by decide)
  simp [isJsonWs, h1, h2, h3, h4]

theorem skipWs_cons_of (c : Char) (cs : List Char) (h : 33 ≤ c.toNat) :
    skipWs (c :: cs) = c :: cs := by
  simp [skipWs, isJsonWs_false_of_ge c h]

/-- A character that can legally open a serialized value: visible, and
neither a closing bracket nor a closing brace. -/
@[reducible]
def goodValueHead (c : Char) : Prop :=
  33 ≤ c.toNat ∧ c.toNat ≠ 93 ∧ c.toNat ≠ 125

/-- Every serialized value starts with a character that is visible and is
neither a closing bracket nor a closing brace. -/
theorem serValue_head (j : Json) :
    ∃ c tl, serValue j = c :: tl ∧ goodValueHead c := by
  cases j with
  | jnull => exact ⟨'n', _, rfl, by decide⟩
  | jbool b => cases b with
    | true => exact ⟨'t', _, rfl, by decide⟩
    | false => exact ⟨'f', _, rfl, by decide⟩
  | jnum n =>
    cases n with
    | ofNat m =>
      by_cases h0 : m = 0
      · refine ⟨'0', [], by simp [serValue, serInt, serNat, h0], by decide⟩
      · have hne : Nat.digits 10 m ≠ [] := Nat.digits_ne_nil_iff_ne_zero.mpr h0
        obtain ⟨d0, ds1, hds⟩ : ∃ d0 ds1, (Nat.digits 10 m).reverse = d0 :: ds1 := by
          cases hr2 : (Nat.digits 10 m).reverse with
          | nil => exact absurd (by simpa using congrArg List.reverse hr2) hne
          | cons a b => exact ⟨a, b, rfl⟩
        have hmem : d0 ∈ Nat.digits 10 m := by
          rw [← List.mem_reverse, hds]; simp
        have hd0 : d0 < 10 := Nat.digits_lt_base (by norm_num) hmem
        have htoNat : (digitChar d0).toNat = 48 + d0 :=
          char_toNat_ofNat (48 + d0) (Or.inl (by omega))
        refine ⟨digitChar d0, ds1.map digitChar, ?_, by unfold goodValueHead; omega⟩
        show serValue (.jnum (Int.ofNat m)) = _
        have : serValue (.jnum (Int.ofNat m)) = serNat m := rfl
        rw [this, serNat_eq m h0, hds]
        simp
    | negSucc m => exact ⟨'-', _, rfl, by decide⟩
  | jstr s => exact ⟨'\"', _, rfl, by decide⟩
  | jarr es =>
    cases es with
    | nil => exact ⟨'[', _, rfl, by decide⟩
    | cons e es1 => exact ⟨'[', _, rfl, by decide⟩
  | jobj fs =>
    cases fs with
    | nil => exact ⟨'\x7b', _, rfl, by decide⟩
    | cons f fs1 => exact ⟨'\x7b', _, rfl, by decide⟩

theorem skipWs_serValue (j : Json) (tail : List Char) :
    skipWs (serValue j ++ tail) = serValue j ++ tail := by
  obtain ⟨c, tl, he, h33, _, _⟩ := serValue_head j
  rw [he, List.cons_append, skipWs_cons_of c _ h33]

theorem headNotDigit_serMembers (fs : List (String × Json)) (rest : List Char) :
    headNotDigit (serMembers fs ++ '\x7d' :: rest) := by
  cases fs with
  | nil => simp [serMembers, headNotDigit]
  | cons f fs1 => simp [serMembers, headNotDigit]

theorem headNotDigit_serElems (es : List Json) (rest : List Char) :
    headNotDigit (serElems es ++ ']' :: rest) := by
  cases es with
  | nil => simp [serElems, headNotDigit]
  | cons e es1 => simp [serElems, headNotDigit]

theorem jsize_pos (j : Json) : 1 ≤ jsize j := by
  cases j <;> simp [jsize]

/-- The scanner undoes the encoder's escaping: the body of a string
literal printed by `escapeString` parses back to the original characters,
leaving the suffix after the closing quote intact. -/
theorem parseStringBody_escapeString (l : List Char) :
    ∀ (fuel : Nat) (rest : List Char), l.length + 1 ≤ fuel →
      parseStringBody fuel (escapeString l ++ ('\"' :: rest)) = some (l, rest) := by
  induction l with
  | nil =>
    intro fuel rest h
    obtain ⟨f, rfl⟩ : ∃ f, fuel = f + 1 := ⟨fuel - 1, by omega⟩
    simp [escapeString, parseStringBody]
  | cons c cs ih =>
    intro fuel rest h
    obtain ⟨f, rfl⟩ : ∃ f, fuel = f + 1 := ⟨fuel - 1, by omega⟩
    have hf : cs.length + 1 ≤ f := by
      simp only [List.length_cons] at h; omega
    rw [escapeString, List.append_assoc]
    by_cases h1 : c = '\"'
    · subst h1
      simp [escapeChar, parseStringBody, decodeEscape, consFst, ih f rest hf]
    · by_cases h2 : c = '\\'
      · subst h2
        simp [escapeChar, parseStringBody, decodeEscape, consFst, ih f rest hf]
      · by_cases h3 : c.toNat = 8
        · have hc : Char.ofNat 8 = c := by rw [← h3, char_ofNat_toNat]
          rw [← hc]
          simp [escapeChar, parseStringBody, decodeEscape, consFst, ih f rest hf]
        · by_cases h4 : c.toNat = 9
          · have hc : Char.ofNat 9 = c := by rw [← h4, char_ofNat_toNat]
            rw [← hc]
            simp [escapeChar, parseStringBody, decodeEscape, consFst, ih f rest hf]
          · by_cases h5 : c.toNat = 10
            · have hc : Char.ofNat 10 = c := by rw [← h5, char_ofNat_toNat]
              rw [← hc]
              simp [escapeChar, parseStringBody, decodeEscape, consFst, ih f rest hf]
            · by_cases h6 : c.toNat = 12
              · have hc : Char.ofNat 12 = c := by rw [← h6, char_ofNat_toNat]
                rw [← hc]
                simp [escapeChar, parseStringBody, decodeEscape, consFst, ih f rest hf]
              · by_cases h7 : c.toNat = 13
                · have hc : Char.ofNat 13 = c := by rw [← h7, char_ofNat_toNat]
                  rw [← hc]
                  simp [escapeChar, parseStringBody, decodeEscape, consFst, ih f rest hf]
                · by_cases h8 : 32 ≤ c.toNat ∧ c.toNat ≤ 126
                  · have hq : ¬ c.toNat < 32 := by omega
                    simp [escapeChar, h1, h2, h3, h4, h5, h6, h7, h8, parseStringBody, hq,
                      consFst, ih f rest hf]
                  · by_cases h9 : c.toNat < 65536
                    · have hv := char_valid_range c
                      have hs1 : ¬ (55296 ≤ c.toNat ∧ c.toNat ≤ 56319) := by omega
                      have hs2 : ¬ (56320 ≤ c.toNat ∧ c.toNat ≤ 57343) := by omega
                      have hc : Char.ofNat c.toNat = c := char_ofNat_toNat c
                      simp only [escapeChar, if_neg h1, if_neg h2, if_neg h3, if_neg h4,
                        if_neg h5, if_neg h6, if_neg h7, if_neg h8, if_pos h9]
                      simp only [List.cons_append]
                      rw [parseStringBody_backslash, decodeEscape_bmp _ _ h9 hs1 hs2]
                      simp [consFst, ih f rest hf, hc]
                    · have hv := char_valid_range c
                      have hb : c.toNat < 1114112 := by omega
                      have hm1024 := Nat.mod_lt (c.toNat - 65536) (show 0 < 1024 by norm_num)
                      have hhi : 55296 + (c.toNat - 65536) / 1024 < 65536 := by omega
                      have hlo : 56320 + (c.toNat - 65536) % 1024 < 65536 := by omega
                      have hs1 : 55296 ≤ 55296 + (c.toNat - 65536) / 1024 ∧
                          55296 + (c.toNat - 65536) / 1024 ≤ 56319 := by omega
                      have hs2 : 56320 ≤ 56320 + (c.toNat - 65536) % 1024 ∧
                          56320 + (c.toNat - 65536) % 1024 ≤ 57343 := by omega
                      have harith : 65536 + (55296 + (c.toNat - 65536) / 1024 - 55296) * 1024 +
                          (56320 + (c.toNat - 65536) % 1024 - 56320) = c.toNat := by omega
                      have hc : Char.ofNat c.toNat = c := char_ofNat_toNat c
                      simp only [escapeChar, if_neg h1, if_neg h2, if_neg h3, if_neg h4,
                        if_neg h5, if_neg h6, if_neg h7, if_neg h8, if_neg h9]
                      simp only [List.cons_append, List.append_assoc]
                      rw [parseStringBody_backslash,
                        decodeEscape_surrogate _ _ _ hhi hlo hs1 hs2]
                      simp only [harith, hc, consFst, ih f rest hf]

theorem string_mk_data (s : String) : String.mk s.data = s := rfl

theorem char_ne_of_val (c : Char) (n : Nat) (d : Char) (hc : c.toNat ≠ n)
    (hd : d.toNat = n) : ¬ c = d :=
  char_ne_of_toNat_ne c d (by omega)

theorem skipWs_space (tail : List Char) : skipWs (' ' :: tail) = skipWs tail := by
  simp [skipWs, isJsonWs]

/-- The three scanners parse back what the three printers print, leaving
any suffix intact: the round-trip invariant, by induction on the parser
fuel. -/
theorem parse_ser_main : ∀ fuel : Nat,
    (∀ (j : Json) (rest : List Char), jsize j ≤ fuel → headNotDigit rest →
      parseValue fuel (serValue j ++ rest) = some (j, rest)) ∧
    (∀ (k : String) (v : Json) (fs : List (String × Json)) (rest : List Char),
      jsizeMembers ((k, v) :: fs) ≤ fuel →
      parseMembers fuel (serMember (k, v) ++ (serMembers fs ++ '\x7d' :: rest)) =
        some ((k, v) :: fs, rest)) ∧
    (∀ (e : Json) (es : List Json) (rest : List Char),
      jsizeElems (e :: es) ≤ fuel →
      parseElems fuel (serValue e ++ (serElems es ++ ']' :: rest)) =
        some (e :: es, rest)) := by
  intro fuel
  induction fuel with
  | zero =>
    refine ⟨?_, ?_, ?_⟩
    · intro j rest hs _
      exact absurd hs (by have := jsize_pos j; omega)
    · intro k v fs rest hs
      exact absurd hs (by have := jsize_pos v; simp only [jsizeMembers]; omega)
    · intro e es rest hs
      exact absurd hs (by have := jsize_pos e; simp only [jsizeElems]; omega)
  | succ f ih =>
    obtain ⟨ihP, ihQ, ihR⟩ := ih
    refine ⟨?_, ?_, ?_⟩
    · intro j rest hs hr
      cases j with
      | jnull => simp [serValue, parseValue]
      | jbool b => cases b <;> simp [serValue, parseValue]
      | jnum n => exact parseValue_serInt f n rest hr
      | jstr s =>
        obtain ⟨sdata⟩ := s
        have hser : serValue (.jstr (String.mk sdata)) ++ rest
            = '\"' :: (escapeString sdata ++ ('\"' :: rest)) := by
          simp [serValue]
        rw [hser]
        simp only [parseValue, if_pos rfl]
        rw [parseStringBody_escapeString sdata _ rest
          (by have := escapeString_length_ge sdata; simp [List.length_append]; omega)]
        simp
      | jarr es =>
        cases es with
        | nil => simp [serValue, parseValue, skipWs, isJsonWs]
        | cons e es1 =>
          have hsz : jsizeElems (e :: es1) ≤ f := by
            simp only [jsize] at hs; omega
          have hser : serValue (.jarr (e :: es1)) ++ rest
              = '[' :: (serValue e ++ (serElems es1 ++ (']' :: rest))) := by
            simp [serValue]
          rw [hser]
          simp only [parseValue]
          rw [if_pos trivial, skipWs_serValue e (serElems es1 ++ ']' :: rest)]
          obtain ⟨c, tl, hhead, h33, hne93, _⟩ := serValue_head e
          rw [hhead, List.cons_append]
          dsimp only
          rw [if_neg (char_ne_of_val c 93 ']' hne93 (by decide))]
          rw [← List.cons_append, ← hhead, ihR e es1 rest hsz]
          simp
      | jobj fs =>
        cases fs with
        | nil => simp [serValue, parseValue, skipWs, isJsonWs]
        | cons f1 fs1 =>
          obtain ⟨k, v⟩ := f1
          have hsz : jsizeMembers ((k, v) :: fs1) ≤ f := by
            simp only [jsize] at hs; omega
          have hser : serValue (.jobj ((k, v) :: fs1)) ++ rest
              = '\x7b' :: (serMember (k, v) ++ (serMembers fs1 ++ ('\x7d' :: rest))) := by
            simp [serValue]
          rw [hser]
          simp only [parseValue]
          rw [if_pos trivial]
          have hm : serMember (k, v) ++ (serMembers fs1 ++ '\x7d' :: rest)
              = '\"' :: ((escapeString k.data ++ ['\"', ':', ' '] ++ serValue v) ++
                  (serMembers fs1 ++ '\x7d' :: rest)) := by
            simp [serMember]
          rw [hm, skipWs_cons_of '\"' _ (by decide)]
          dsimp only
          rw [if_neg (by decide), ← hm, ihQ k v fs1 rest hsz]
          simp
    · intro k v fs rest hs
      have hszv : jsize v ≤ f := by
        simp only [jsizeMembers] at hs; omega
      have hser : serMember (k, v) ++ (serMembers fs ++ '\x7d' :: rest)
          = '\"' :: (escapeString k.data ++
              ('\"' :: (':' :: (' ' :: (serValue v ++ (serMembers fs ++ '\x7d' :: rest)))))) := by
        simp [serMember]
      rw [hser]
      simp only [parseMembers]
      rw [if_pos trivial]
      rw [parseStringBody_escapeString k.data _ _
        (by
          have := escapeString_length_ge k.data
          simp only [List.length_append, List.length_cons]
          omega)]
      dsimp only
      rw [skipWs_cons_of ':' _ (by decide)]
      dsimp only
      rw [if_pos rfl, skipWs_space, skipWs_serValue v (serMembers fs ++ '\x7d' :: rest),
        ihP v _ hszv (headNotDigit_serMembers fs rest)]
      dsimp only
      cases fs with
      | nil =>
        simp only [serMembers, List.nil_append]
        rw [skipWs_cons_of '\x7d' _ (by decide)]
        dsimp only
        rw [if_neg (by decide), if_pos rfl, string_mk_data]
      | cons f2 fs2 =>
        obtain ⟨k2, v2⟩ := f2
        have hsz2 : jsizeMembers ((k2, v2) :: fs2) ≤ f := by
          simp only [jsizeMembers] at hs ⊢
          have := jsize_pos v; omega
        have hm2 : serMembers ((k2, v2) :: fs2) ++ '\x7d' :: rest
            = ',' :: (' ' :: (serMember (k2, v2) ++ (serMembers fs2 ++ '\x7d' :: rest))) := by
          simp [serMembers]
        rw [hm2, skipWs_cons_of ',' _ (by decide)]
        dsimp only
        rw [if_pos rfl, skipWs_space]
        have hm3 : serMember (k2, v2) ++ (serMembers fs2 ++ '\x7d' :: rest)
            = '\"' :: ((escapeString k2.data ++ ['\"', ':', ' '] ++ serValue v2) ++
                (serMembers fs2 ++ '\x7d' :: rest)) := by
          simp [serMember]
        rw [hm3, skipWs_cons_of '\"' _ (by decide), ← hm3, ihQ k2 v2 fs2 rest hsz2,
          string_mk_data]
    · intro e es rest hs
      have hsze : jsize e ≤ f := by
        simp only [jsizeElems] at hs; omega
      simp only [parseElems]
      rw [ihP e _ hsze (headNotDigit_serElems es rest)]
      dsimp only
      cases es with
      | nil =>
        simp only [serElems, List.nil_append]
        rw [skipWs_cons_of ']' _ (by decide)]
        dsimp only
        rw [if_neg (by decide), if_pos rfl]
      | cons e2 es2 =>
        have hsz2 : jsizeElems (e2 :: es2) ≤ f := by
          simp only [jsizeElems] at hs ⊢
          have := jsize_pos e; omega
        have hm2 : serElems (e2 :: es2) ++ ']' :: rest
            = ',' :: (' ' :: (serValue e2 ++ (serElems es2 ++ ']' :: rest))) := by
          simp [serElems]
        rw [hm2, skipWs_cons_of ',' _ (by decide)]
        dsimp only
        rw [if_pos rfl, skipWs_space,
          skipWs_serValue e2 (serElems es2 ++ ']' :: rest), ihR e2 es2 rest hsz2]

mutual

/-- A value's structural size never exceeds its printed length, so the
input-length-based fuel of `json_loads` always suffices. -/
theorem jsize_le_ser : (j : Json) → jsize j ≤ (serValue j).length
  | .jnull => by simp [jsize, serValue]
  | .jbool true => by simp [jsize, serValue]
  | .jbool false => by simp [jsize, serValue]
  | .jnum n => by
    cases n with
    | ofNat m =>
      have h1 : 1 ≤ (serNat m).length := by
        by_cases h0 : m = 0
        · subst h0; simp [serNat]
        · rw [serNat_eq m h0]
          have hne : Nat.digits 10 m ≠ [] := Nat.digits_ne_nil_iff_ne_zero.mpr h0
          simp only [List.length_map, List.length_reverse]
          cases hq : Nat.digits 10 m with
          | nil => exact absurd hq hne
          | cons a b => simp
      simpa [jsize, serValue, serInt] using h1
    | negSucc m => simp [jsize, serValue, serInt]
  | .jstr s => by simp [jsize, serValue]
  | .jarr [] => by simp [jsize, serValue, jsizeElems]
  | .jarr (e :: es) => by
    have h1 := jsize_le_ser e
    have h2 := jsizeElems_le_ser es
    simp only [jsize, serValue, jsizeElems, List.length_cons, List.length_append]
    omega
  | .jobj [] => by simp [jsize, serValue, jsizeMembers]
  | .jobj (f :: fs) => by
    have h1 := jsizeMember_le_ser f
    have h2 := jsizeMembers_le_ser fs
    simp only [jsize, serValue, jsizeMembers, List.length_cons, List.length_append]
    omega

/-- One member's printed length dominates its value size plus framing. -/
theorem jsizeMember_le_ser : (f : String × Json) → jsize f.2 + 2 ≤ (serMember f).length
  | (k, v) => by
    have h1 := jsize_le_ser v
    simp only [serMember, List.length_cons, List.length_append]
    omega

/-- Member-list sizes are dominated by their printed length. -/
theorem jsizeMembers_le_ser : (fs : List (String × Json)) →
    jsizeMembers fs ≤ (serMembers fs).length
  | [] => by simp [jsizeMembers, serMembers]
  | f :: fs => by
    have h1 := jsizeMember_le_ser f
    have h2 := jsizeMembers_le_ser fs
    simp only [jsizeMembers, serMembers, List.length_cons, List.length_append]
    omega

/-- Element-list sizes are dominated by their printed length. -/
theorem jsizeElems_le_ser : (es : List Json) → jsizeElems es ≤ (serElems es).length
  | [] => by simp [jsizeElems, serElems]
  | e :: es => by
    have h1 := jsize_le_ser e
    have h2 := jsizeElems_le_ser es
    simp only [jsizeElems, serElems, List.length_cons, List.length_append]
    omega

end

/-- Full codec round trip: `json.loads` recovers exactly the value that
`json.dumps` printed. -/
theorem json_loads_dumps (j : Json) : json_loads (json_dumps j) = some j := by
  have hmain := (parse_ser_main ((serValue j).length + 1)).1 j []
    (by have := jsize_le_ser j; omega) trivial
  rw [List.append_nil] at hmain
  unfold json_loads json_dumps
  have hdata : (String.mk (serValue j)).data = serValue j := rfl
  rw [hdata]
  have hskip : skipWs (serValue j) = serValue j := by
    have := skipWs_serValue j []
    simpa using this
  rw [hskip, hmain]
  simp [skipWs]

/-! ## Supporting lemmas: clear-all fold, discovery fold, scan loop -/

theorem clear_fold (rpc : Nat → RpcOutcome) :
    ∀ (slots : List Nat) (acc : ClearSchedulesResult × List Nat),
      slots.foldl (clearSlotStep rpc) acc =
        (⟨acc.1.success_count + (slots.filter (fun s => (rpc s).isOk)).length,
          acc.1.total_slots + slots.length,
          acc.1.failed_slots ++ slots.filter (fun s => !(rpc s).isOk)⟩,
          acc.2 ++ slots) := by
  intro slots
  induction slots with
  | nil => intro acc; simp
  | cons s slots ih =>
    intro acc
    simp only [List.foldl_cons, ih]
    cases hs : rpc s with
    | ok res =>
      simp [clearSlotStep, hs, RpcOutcome.isOk, List.filter_cons]
      omega
    | rpcError code msg =>
      simp [clearSlotStep, hs, RpcOutcome.isOk, List.filter_cons]
      omega

theorem lookup_none_iff_not_mem (l : ResponsesDict) (k : String) :
    l.lookup k = none ↔ k ∉ l.map Prod.fst := by
  induction l with
  | nil => simp [List.lookup]
  | cons p l ih =>
    obtain ⟨a, d⟩ := p
    by_cases h : k = a
    · subst h
      simp [List.lookup]
    · simp [List.lookup, beq_false_of_ne h, ih, h]

theorem discoverKeeps_of_hasKey (p : Json) (h : p.hasKey "result" = true) :
    discoverKeeps p = true := by
  cases p with
  | jobj fields => simpa [Json.hasKey, Json.get?, discoverKeeps] using h
  | jnull => simp [Json.hasKey, Json.get?] at h
  | jbool b => simp [Json.hasKey, Json.get?] at h
  | jnum n => simp [Json.hasKey, Json.get?] at h
  | jstr s => simp [Json.hasKey, Json.get?] at h
  | jarr es => simp [Json.hasKey, Json.get?] at h

theorem discoverCollect_go_keys (replies : List ((String × Nat) × Json)) :
    ∀ acc : ResponsesDict, (acc.map Prod.fst).Nodup →
      ((replies.foldl (fun a ev => discoverStep a ev.1 ev.2) acc).map Prod.fst).Nodup := by
  induction replies with
  | nil => intro acc h; simpa using h
  | cons ev replies ih =>
    intro acc h
    simp only [List.foldl_cons]
    apply ih
    unfold discoverStep
    by_cases h1 : discoverKeeps ev.2 = true
    · rw [if_pos h1]
      by_cases h2 : (acc.lookup ev.1.1).isSome = true
      · rw [if_pos h2]; exact h
      · rw [if_neg h2]
        have hnone : acc.lookup ev.1.1 = none := by
          cases hq : acc.lookup ev.1.1 with
          | none => rfl
          | some d => rw [hq] at h2; simp at h2
        have hnm := (lookup_none_iff_not_mem acc ev.1.1).mp hnone
        simp [List.nodup_append, h, hnm]
    · rw [if_neg h1]; exact h

theorem discoverStep_skip_invalid (acc : ResponsesDict) (addr : String × Nat) (p : Json)
    (h : discoverKeeps p = false) : discoverStep acc addr p = acc := by
  simp [discoverStep, h]

theorem discoverStep_skip_dup (acc : ResponsesDict) (addr : String × Nat) (p : Json)
    (h2 : (acc.lookup addr.1).isSome = true) : discoverStep acc addr p = acc := by
  unfold discoverStep
  by_cases h1 : discoverKeeps p = true
  · rw [if_pos h1, if_pos h2]
  · rw [if_neg h1]

theorem discoverStep_add (acc : ResponsesDict) (addr : String × Nat) (p : Json)
    (h1 : discoverKeeps p = true) (h2 : acc.lookup addr.1 = none) :
    discoverStep acc addr p = acc ++ [(addr.1, ⟨addr.1, addr.2, p⟩)] := by
  simp [discoverStep, h1, h2]

theorem lookup_append_single (acc : ResponsesDict) (a : String) (d : DiscoveredDevice) :
    ∀ k : String, (acc ++ [(a, d)]).lookup k =
      (match acc.lookup k with
       | some d0 => some d0
       | none => if k == a then some d else none) := by
  induction acc with
  | nil =>
    intro k
    by_cases h : k = a
    · simp [List.lookup, h]
    · simp [List.lookup, h, beq_false_of_ne h]
  | cons p acc ih =>
    intro k
    obtain ⟨b, d0⟩ := p
    by_cases hk : k = b
    · subst hk; simp [List.lookup]
    · simp only [List.cons_append, List.lookup, beq_false_of_ne hk]
      exact ih k

theorem discoverCollect_go_lookup (replies : List ((String × Nat) × Json)) :
    ∀ (acc : ResponsesDict) (ip : String),
      (replies.foldl (fun a ev => discoverStep a ev.1 ev.2) acc).lookup ip =
        (match acc.lookup ip with
         | some d => some d
         | none =>
           ((replies.filter (fun ev => discoverKeeps ev.2)).find?
             (fun ev => ev.1.1 == ip)).map (fun ev => ⟨ev.1.1, ev.1.2, ev.2⟩)) := by
  induction replies with
  | nil =>
    intro acc ip
    cases h : acc.lookup ip <;> simp [h]
  | cons ev replies ih =>
    intro acc ip
    simp only [List.foldl_cons]
    by_cases h1 : discoverKeeps ev.2 = true
    · by_cases h2 : (acc.lookup ev.1.1).isSome = true
      · rw [discoverStep_skip_dup acc ev.1 ev.2 h2, ih]
        by_cases hip : ev.1.1 = ip
        · subst hip
          obtain ⟨d, hd⟩ := Option.isSome_iff_exists.mp h2
          simp [hd, List.filter_cons, h1]
        · cases hacc : acc.lookup ip <;>
            simp [hacc, List.filter_cons, h1, List.find?, beq_false_of_ne hip]
      · have hnone : acc.lookup ev.1.1 = none := by
          cases hq : acc.lookup ev.1.1 with
          | none => rfl
          | some d => rw [hq] at h2; simp at h2
        rw [discoverStep_add acc ev.1 ev.2 h1 hnone, ih]
        by_cases hip : ev.1.1 = ip
        · subst hip
          rw [lookup_append_single acc ev.1.1 _ ev.1.1, hnone]
          simp [List.filter_cons, h1, List.find?]
        · rw [lookup_append_single acc ev.1.1 _ ip]
          cases hacc : acc.lookup ip <;>
            simp [hacc, List.filter_cons, h1, List.find?, beq_false_of_ne hip,
              beq_false_of_ne (Ne.symm hip)]
    · have h1f : discoverKeeps ev.2 = false := by
        cases hq : discoverKeeps ev.2
        · rfl
        · exact absurd hq h1
      rw [discoverStep_skip_invalid acc ev.1 ev.2 h1f, ih]
      simp [List.filter_cons, h1f]

theorem discoverCollect_payload_valid (replies : List ((String × Nat) × Json)) :
    ∀ acc : ResponsesDict,
      (∀ e ∈ acc, discoverKeeps e.2.payload = true) →
      ∀ e ∈ replies.foldl (fun a ev => discoverStep a ev.1 ev.2) acc,
        discoverKeeps e.2.payload = true := by
  induction replies with
  | nil => intro acc h; simpa using h
  | cons ev replies ih =>
    intro acc h
    simp only [List.foldl_cons]
    apply ih
    intro e he
    unfold discoverStep at he
    by_cases h1 : discoverKeeps ev.2 = true
    · rw [if_pos h1] at he
      by_cases h2 : (acc.lookup ev.1.1).isSome = true
      · rw [if_pos h2] at he; exact h e he
      · rw [if_neg h2] at he
        rcases List.mem_append.mp he with hin | hin
        · exact h e hin
        · have : e = (ev.1.1, ⟨ev.1.1, ev.1.2, ev.2⟩) := List.mem_singleton.mp hin
          rw [this]
          exact h1
    · rw [if_neg h1] at he
      exact h e he

theorem discoverLoop_no_fatal (events : List ScanEvent) :
    ∀ acc : ResponsesDict, ScanEvent.fatal ∉ events →
      discoverLoop acc events =
        .ok ((recvReplies events).foldl (fun a ev => discoverStep a ev.1 ev.2) acc) := by
  induction events with
  | nil => intro acc _; rfl
  | cons ev events ih =>
    intro acc hnf
    have hnf2 : ScanEvent.fatal ∉ events := fun h => hnf (List.mem_cons_of_mem ev h)
    cases ev with
    | fatal => exact absurd (List.mem_cons_self _ _) hnf
    | recv addr payload => simpa [discoverLoop, recvReplies] using ih _ hnf2
    | sendOk => simpa [discoverLoop, recvReplies] using ih _ hnf2
    | sendFail => simpa [discoverLoop, recvReplies] using ih _ hnf2
    | recvBadJson => simpa [discoverLoop, recvReplies] using ih _ hnf2
    | recvParseIssue => simpa [discoverLoop, recvReplies] using ih _ hnf2
    | recvTimeout => simpa [discoverLoop, recvReplies] using ih _ hnf2
    | sockErr => simpa [discoverLoop, recvReplies] using ih _ hnf2

theorem discoverLoop_fatal (events : List ScanEvent) :
    ∀ acc : ResponsesDict, ScanEvent.fatal ∈ events →
      discoverLoop acc events = .error () := by
  induction events with
  | nil => intro acc h; cases h
  | cons ev events ih =>
    intro acc hf
    cases ev with
    | fatal => rfl
    | recv addr payload =>
      have : ScanEvent.fatal ∈ events := by
        rcases List.mem_cons.mp hf with h | h
        · cases h
        · exact h
      simpa [discoverLoop] using ih _ this
    | sendOk =>
      have : ScanEvent.fatal ∈ events := by
        rcases List.mem_cons.mp hf with h | h
        · cases h
        · exact h
      simpa [discoverLoop] using ih _ this
    | sendFail =>
      have : ScanEvent.fatal ∈ events := by
        rcases List.mem_cons.mp hf with h | h
        · cases h
        · exact h
      simpa [discoverLoop] using ih _ this
    | recvBadJson =>
      have : ScanEvent.fatal ∈ events := by
        rcases List.mem_cons.mp hf with h | h
        · cases h
        · exact h
      simpa [discoverLoop] using ih _ this
    | recvParseIssue =>
      have : ScanEvent.fatal ∈ events := by
        rcases List.mem_cons.mp hf with h | h
        · cases h
        · exact h
      simpa [discoverLoop] using ih _ this
    | recvTimeout =>
      have : ScanEvent.fatal ∈ events := by
        rcases List.mem_cons.mp hf with h | h
        · cases h
        · exact h
      simpa [discoverLoop] using ih _ this
    | sockErr =>
      have : ScanEvent.fatal ∈ events := by
        rcases List.mem_cons.mp hf with h | h
        · cases h
        · exact h
      simpa [discoverLoop] using ih _ this

/-! ## Supporting lemmas: response future and retry loop -/

theorem datagram_received_done (expected_id : Nat) (st : FutureState) (d : Option Json)
    (h : st ≠ .pending) : datagram_received expected_id st d = st := by
  cases st with
  | pending => exact absurd rfl h
  | result r => rfl
  | exc e => rfl

theorem datagram_received_result (expected_id : Nat) (st : FutureState) (d : Option Json)
    (r : Json) (h : datagram_received expected_id st d = .result r) :
    st = .result r ∨ ∃ v, r.get? "id" = some v ∧ v.pyEqInt expected_id = true := by
  cases st with
  | result r0 => exact Or.inl h
  | exc e => exact absurd h (by rw [datagram_received_done] <;> simp)
  | pending =>
    right
    cases d with
    | none => simp [datagram_received] at h
    | some j =>
      cases j with
      | jobj fields =>
        simp only [datagram_received] at h
        cases hv : (Json.jobj fields).get? "id" with
        | none => rw [hv] at h; simp at h
        | some v =>
          rw [hv] at h
          dsimp only at h
          by_cases hpy : v.pyEqInt expected_id = true
          · rw [if_pos hpy] at h
            refine ⟨v, ?_, hpy⟩
            have : Json.jobj fields = r := by
              injection h
            rw [← this]
            exact hv
          · rw [if_neg hpy] at h
            simp at h
      | jnull => simp [datagram_received] at h
      | jbool b => simp [datagram_received] at h
      | jnum n => simp [datagram_received] at h
      | jstr s => simp [datagram_received] at h
      | jarr es => simp [datagram_received] at h

theorem runDatagrams_result (expected_id : Nat) :
    ∀ (datagrams : List (Option Json)) (st : FutureState) (r : Json),
      runDatagrams expected_id st datagrams = .result r →
      st = .result r ∨ ∃ v, r.get? "id" = some v ∧ v.pyEqInt expected_id = true := by
  intro datagrams
  induction datagrams with
  | nil => intro st r h; exact Or.inl h
  | cons d ds ih =>
    intro st r h
    rcases ih (datagram_received expected_id st d) r h with h1 | h2
    · exact datagram_received_result expected_id st d r h1
    · exact Or.inr h2

theorem runAttempts_sent (expected_id : Nat) (payload : Json) :
    ∀ windows : List (List (Option Json)),
      (runAttempts expected_id payload windows).2 =
        List.replicate (runAttempts expected_id payload windows).2.length payload := by
  intro windows
  induction windows with
  | nil => rfl
  | cons w ws ih =>
    simp only [runAttempts]
    cases h : attemptOutcome expected_id w with
    | some out => simp [List.replicate]
    | none => simpa [List.replicate] using ih

theorem session_request_ids_eq :
    ∀ (n : Nat) (c : MarstekUDPClient),
      session_request_ids c n = List.range' (c.request_id + 1) n := by
  intro n
  induction n with
  | zero => intro c; rfl
  | succ m ih =>
    intro c
    simp only [session_request_ids, _get_next_id]
    rw [ih]
    rfl

/-! ## Claim theorems -/

/-- Claim C1 (modelled from the spec, see `clear_all_manual_schedules`):
for every run of the clear-all-schedules operation over slots 0-9, it
disables the slots sequentially with one schedule-set call per slot (the
call trace is exactly `[0, ..., 9]`), never aborts on a single slot's
failure (the total is always 10), and returns the tuple (succeeded count,
total count, failed slot indices); in particular, if exactly slot 3's
call raises an RPC error and the other nine succeed, the result is
9 succeeded, 10 total, failed slots `[3]`. -/
theorem clm_c1_clear_all (rpc : Nat → RpcOutcome) :
    (clear_all_manual_schedules rpc).2 = List.range 10 ∧
    (clear_all_manual_schedules rpc).1.total_slots = 10 ∧
    (clear_all_manual_schedules rpc).1.success_count =
      ((List.range 10).filter (fun s => (rpc s).isOk)).length ∧
    (clear_all_manual_schedules rpc).1.failed_slots =
      (List.range 10).filter (fun s => !(rpc s).isOk) ∧
    ((∀ s : Nat, (rpc s).isOk = decide (s ≠ 3)) →
      (clear_all_manual_schedules rpc).1 = ⟨9, 10, [3]⟩) := by
  have h := clear_fold rpc (List.range 10) (⟨0, 0, []⟩, [])
  unfold clear_all_manual_schedules
  rw [h]
  refine ⟨by simp, by simp, by simp, by simp, ?_⟩
  intro hyp
  have hr : List.range 10 = [0, 1, 2, 3, 4, 5, 6, 7, 8, 9] := rfl
  simp [hr, hyp, List.filter]

/-- Slot-call oracle where exactly slot 3's schedule-set call raises an
RPC error and every other slot succeeds. -/
def rpcSlot3Fails : Nat → RpcOutcome := fun s =>
  if s = 3 then .rpcError (-1) "RPC Error" else .ok (Json.jobj [])

/-- Witness for C1 at the concrete slot-3-fails oracle. -/
theorem clm_c1_clear_all_witness :
    (clear_all_manual_schedules rpcSlot3Fails).1 = ⟨9, 10, [3]⟩ ∧
    (clear_all_manual_schedules rpcSlot3Fails).2 = List.range 10 := by
  refine ⟨(clm_c1_clear_all rpcSlot3Fails).2.2.2.2 ?_, (clm_c1_clear_all rpcSlot3Fails).1⟩
  intro s
  by_cases h : s = 3 <;> simp [rpcSlot3Fails, h, RpcOutcome.isOk]

/-- Claim C9: a successful on-demand battery refresh replaces only the
battery slice of the coordinator's state and notifies listeners
immediately; a successful mode/CT refresh replaces only the mode slice
and notifies immediately; the primary snapshot and the other endpoint's
slice are left unchanged, and the refreshed slice is returned. -/
theorem clm_c9_refresh_frame (c : MarstekDataUpdateCoordinator) (response : Json) :
    ((refresh_battery_data c response).1.data = c.data ∧
     (refresh_battery_data c response).1.mode_data = c.mode_data ∧
     (refresh_battery_data c response).1.battery_data = response ∧
     (refresh_battery_data c response).1.listener_updates = c.listener_updates + 1 ∧
     (refresh_battery_data c response).2 = response) ∧
    ((refresh_mode_data c response).1.data = c.data ∧
     (refresh_mode_data c response).1.battery_data = c.battery_data ∧
     (refresh_mode_data c response).1.mode_data = response ∧
     (refresh_mode_data c response).1.listener_updates = c.listener_updates + 1 ∧
     (refresh_mode_data c response).2 = response) :=
  ⟨⟨rfl, rfl, rfl, rfl, rfl⟩, ⟨rfl, rfl, rfl, rfl, rfl⟩⟩

/-- Claim C4, counterexample: the attempt count of a transport call is not
tunable — `max_attempts = 2` is a local constant of `_send_request`, so no
choice of client or call arguments changes it. This refutes the claim
that both the per-attempt timeout and the attempt count are caller-tunable
configuration. -/
theorem clm_c4_counterexample :
    ¬ ∃ (c₁ c₂ : MarstekUDPClient) (m₁ m₂ : String)
        (p₁ p₂ : Option (List (String × Json))),
        sendRequest_max_attempts c₁ m₁ p₁ ≠ sendRequest_max_attempts c₂ m₂ p₂ := by
  rintro ⟨c₁, c₂, m₁, m₂, p₁, p₂, h⟩
  exact h rfl

/-- Claim C4, amended: the per-attempt timeout is caller-tunable
configuration (it is the client's `timeout` constructor argument, and two
clients can differ in it), but the attempt count is the fixed constant 2
of `_send_request`, not tunable by callers. -/
theorem clm_c4_amended :
    (∀ c : MarstekUDPClient, sendRequest_attempt_timeout c = c.timeout) ∧
    (∃ c₁ c₂ : MarstekUDPClient,
      sendRequest_attempt_timeout c₁ ≠ sendRequest_attempt_timeout c₂) ∧
    (∀ (c : MarstekUDPClient) (method : String)
      (params : Option (List (String × Json))),
      sendRequest_max_attempts c method params = 2) := by
  refine ⟨fun c => rfl, ⟨⟨"192.168.0.100", 30000, 5, 0⟩, ⟨"192.168.0.100", 30000, 10, 0⟩, ?_⟩,
    fun c m p => rfl⟩
  norm_num [sendRequest_attempt_timeout]

/-- Claim C7: discovery deduplicates by source address keeping the first
reply — two valid replies from the same source address yield exactly one
discovered device (the first), replies from two distinct addresses yield
two devices, and in general the collected dictionary has pairwise
distinct addresses, each mapped to the first valid reply from that
address. -/
theorem clm_c7_dedup :
    (∀ (addr : String) (port port2 : Nat) (p p2 : Json),
      p.hasKey "result" = true → p2.hasKey "result" = true →
      discoverDevices [((addr, port), p), ((addr, port2), p2)] =
        [⟨addr, port, p⟩]) ∧
    (∀ (addr addr2 : String) (port port2 : Nat) (p p2 : Json), addr ≠ addr2 →
      p.hasKey "result" = true → p2.hasKey "result" = true →
      discoverDevices [((addr, port), p), ((addr2, port2), p2)] =
        [⟨addr, port, p⟩, ⟨addr2, port2, p2⟩]) ∧
    (∀ replies : List ((String × Nat) × Json),
      ((discoverCollect replies).map Prod.fst).Nodup) ∧
    (∀ (replies : List ((String × Nat) × Json)) (ip : String),
      (discoverCollect replies).lookup ip =
        ((replies.filter (fun ev => discoverKeeps ev.2)).find?
          (fun ev => ev.1.1 == ip)).map (fun ev => ⟨ev.1.1, ev.1.2, ev.2⟩)) := by
  refine ⟨?_, ?_, ?_, ?_⟩
  · intro addr port port2 p p2 h1 h2
    unfold discoverDevices discoverCollect
    simp only [List.foldl_cons, List.foldl_nil]
    rw [discoverStep_add [] (addr, port) p (discoverKeeps_of_hasKey p h1) rfl]
    rw [discoverStep_skip_dup _ (addr, port2) p2 (by simp [List.lookup])]
    rfl
  · intro addr addr2 port port2 p p2 hne h1 h2
    unfold discoverDevices discoverCollect
    simp only [List.foldl_cons, List.foldl_nil]
    rw [discoverStep_add [] (addr, port) p (discoverKeeps_of_hasKey p h1) rfl]
    rw [discoverStep_add _ (addr2, port2) p2 (discoverKeeps_of_hasKey p2 h2)
      (by simp [List.lookup, beq_false_of_ne (Ne.symm hne)])]
    rfl
  · intro replies
    exact discoverCollect_go_keys replies [] (by simp)
  · intro replies ip
    rw [show discoverCollect replies
        = replies.foldl (fun a ev => discoverStep a ev.1 ev.2) [] from rfl,
      discoverCollect_go_lookup replies [] ip]
    rfl

/-- Witness for C7 on two concrete reply sequences: duplicate source
address keeps only the first reply; distinct addresses keep both. -/
theorem clm_c7_dedup_witness :
    discoverDevices [(("192.168.0.60", 30000), Json.jobj [("result", Json.jobj [])]),
        (("192.168.0.60", 30001), Json.jobj [("result", Json.jnum 1)])] =
      [⟨"192.168.0.60", 30000, Json.jobj [("result", Json.jobj [])]⟩] ∧
    discoverDevices [(("192.168.0.60", 30000), Json.jobj [("result", Json.jobj [])]),
        (("192.168.0.61", 30000), Json.jobj [("result", Json.jnum 1)])] =
      [⟨"192.168.0.60", 30000, Json.jobj [("result", Json.jobj [])]⟩,
       ⟨"192.168.0.61", 30000, Json.jobj [("result", Json.jnum 1)]⟩] := by
  constructor
  · exact clm_c7_dedup.1 "192.168.0.60" 30000 30001 _ _ rfl rfl
  · exact clm_c7_dedup.2.1 "192.168.0.60" "192.168.0.61" 30000 30000 _ _ (by decide) rfl rfl

/-- Claim C8: false of the code at a failing input. The guard of the scan
loop is `"result" in payload` (udp_client.py line 312); on a decoded
`str` Python `in` is a substring test, so a datagram whose bytes are the
JSON text `"result"` decodes to the string `result` — a payload with no
`result` key at all — yet passes the guard and is returned as a
discovered device, contradicting the claim, the spec's discard rule, and
the code's own comment `Only keep valid responses with "result" field`
(line 311). A list payload holding the string element `"result"` is kept
likewise. The dict case behaves as claimed: the `id`-only probe echo
carries no `result` key and yields no device. -/
theorem clm_c8_result_filter :
    discoverDevices [(("192.168.0.50", 30000), Json.jstr "result")] =
      [⟨"192.168.0.50", 30000, Json.jstr "result"⟩] ∧
    (Json.jstr "result").hasKey "result" = false ∧
    discoverDevices [(("192.168.0.50", 30000), Json.jarr [Json.jstr "result"])] =
      [⟨"192.168.0.50", 30000, Json.jarr [Json.jstr "result"]⟩] ∧
    (Json.jarr [Json.jstr "result"]).hasKey "result" = false ∧
    discoverDevices [(("192.168.0.50", 30000), Json.jobj [("id", Json.jnum 0)])] = [] := by
  exact ⟨rfl, rfl, rfl, rfl, rfl⟩

/-- Claim C10: `discover` never raises to its caller — for every bind
outcome and every scan trace it returns a list (the devices collected
from the received replies, or the empty list when a fatal error escapes
the scan loop), always closes its socket before returning, and its result
does not depend on whether the bind succeeded. -/
theorem clm_c10_discover_total (bindOk : Bool) (events : List ScanEvent) :
    (discover bindOk events).raised = false ∧
    (discover bindOk events).socketClosed = true ∧
    (ScanEvent.fatal ∈ events → (discover bindOk events).devices = []) ∧
    (ScanEvent.fatal ∉ events →
      (discover bindOk events).devices = discoverDevices (recvReplies events)) ∧
    discover bindOk events = discover (!bindOk) events := by
  refine ⟨?_, ?_, ?_, ?_, rfl⟩
  · unfold discover
    cases h : discoverLoop [] events <;> rfl
  · unfold discover
    cases h : discoverLoop [] events <;> rfl
  · intro hf
    unfold discover
    rw [discoverLoop_fatal events [] hf]
  · intro hnf
    unfold discover
    rw [discoverLoop_no_fatal events [] hnf]
    rfl

/-- Witness for C10: a fatal trace returns the empty list; a clean trace
with one valid reply returns the devices collected from it. -/
theorem clm_c10_discover_total_witness :
    (discover true [ScanEvent.fatal]).devices = [] ∧
    (discover true [ScanEvent.recv ("192.168.0.70", 30000)
        (Json.jobj [("result", Json.jobj [])])]).devices =
      discoverDevices [(("192.168.0.70", 30000), Json.jobj [("result", Json.jobj [])])] := by
  constructor
  · exact (clm_c10_discover_total true [ScanEvent.fatal]).2.2.1 (List.mem_singleton.mpr rfl)
  · have h := (clm_c10_discover_total true
      [ScanEvent.recv ("192.168.0.70", 30000) (Json.jobj [("result", Json.jobj [])])]).2.2.2.1
      (by intro hmem; simp at hmem)
    simpa [recvReplies] using h

/-- Claim C2, counterexample: a received datagram decoding to an object
with the outstanding request's id but lacking both `result` and `error`
is NOT treated as a decode error — `_send_request` delivers it as a
successful result whose value is the empty dict
(`response.get("result", default)` on line 87), so the call succeeds
instead of failing. -/
theorem clm_c2_counterexample :
    (_send_request ⟨"192.168.0.100", 30000, 5, 0⟩ "ES.GetStatus"
        (some [("id", Json.jnum 0)])
        (fun _ => [some (Json.jobj [("id", Json.jnum 1)])])).2.1 =
      CallOutcome.ok (Json.jobj []) ∧
    CallOutcome.ok (Json.jobj []) ≠ CallOutcome.decodeError := by
  constructor
  · rfl
  · intro h
    cases h

/-- Claim C2, amended: a received datagram decoding to an object whose
`id` matches the outstanding request and which lacks both `result` and
`error` is delivered as a successful result whose value is the empty
dict (the default of `response.get("result", ...)`); it is not treated
as a decode error. -/
theorem clm_c2_missing_keys_amended (expected_id : Nat) (fields : List (String × Json))
    (hid : ∃ v, (Json.jobj fields).get? "id" = some v ∧
      v.pyEqInt expected_id = true)
    (hres : (Json.jobj fields).hasKey "result" = false)
    (herr : (Json.jobj fields).hasKey "error" = false) :
    attemptOutcome expected_id [some (Json.jobj fields)] =
      some (CallOutcome.ok (Json.jobj [])) := by
  obtain ⟨v, hv, hpy⟩ := hid
  unfold attemptOutcome runDatagrams
  simp only [List.foldl_cons, List.foldl_nil, datagram_received]
  rw [hv]
  dsimp only
  rw [if_pos hpy]
  dsimp only
  unfold processResponse
  rw [if_neg (by simp [herr])]
  have hr : (Json.jobj fields).get? "result" = none := by
    unfold Json.hasKey at hres
    exact Option.not_isSome_iff_eq_none.mp (by simp [hres])
  unfold Json.getD
  rw [hr]
  rfl

/-- Witness for the amended C2 at the concrete datagram carrying only an
`id` field matching the request. -/
theorem clm_c2_missing_keys_amended_witness :
    attemptOutcome 1 [some (Json.jobj [("id", Json.jnum 1)])] =
      some (CallOutcome.ok (Json.jobj [])) :=
  clm_c2_missing_keys_amended 1 [("id", Json.jnum 1)]
    ⟨Json.jnum 1, rfl, rfl⟩ rfl rfl

/-- Claim C3: a response whose `id` does not compare equal to the
outstanding request's `id` is never delivered as that request's result —
whenever the future resolves with a result, the result's `id` value
compares `==`-equal to the request's id, and a mismatched response leaves
the future (and hence the call) still waiting. -/
theorem clm_c3_id_match (expected_id : Nat) :
    (∀ (datagrams : List (Option Json)) (r : Json),
      runDatagrams expected_id .pending datagrams = .result r →
      ∃ v, r.get? "id" = some v ∧ v.pyEqInt expected_id = true) ∧
    (∀ j : Json, (∀ v, j.get? "id" = some v → v.pyEqInt expected_id = false) →
      datagram_received expected_id .pending (some j) = .pending) := by
  constructor
  · intro ds r h
    rcases runDatagrams_result expected_id ds .pending r h with h1 | h2
    · exact FutureState.noConfusion h1
    · exact h2
  · intro j hj
    cases j with
    | jobj fields =>
      simp only [datagram_received]
      cases hv : (Json.jobj fields).get? "id" with
      | none => rfl
      | some v =>
        dsimp only
        rw [if_neg (by simp [hj v hv])]
    | jnull => rfl
    | jbool b => rfl
    | jnum n => rfl
    | jstr s => rfl
    | jarr es => rfl

/-- Witness for C3: a matching response is delivered with the matching
id, and a mismatched one leaves the future pending. -/
theorem clm_c3_id_match_witness :
    (∃ v, (Json.jobj [("id", Json.jnum 7), ("result", Json.jobj [])]).get? "id"
        = some v ∧ v.pyEqInt 7 = true) ∧
    datagram_received 7 .pending (some (Json.jobj [("id", Json.jnum 8)])) = .pending := by
  constructor
  · exact (clm_c3_id_match 7).1
      [some (Json.jobj [("id", Json.jnum 7), ("result", Json.jobj [])])] _ rfl
  · refine (clm_c3_id_match 7).2 (Json.jobj [("id", Json.jnum 8)]) ?_
    intro v hv
    have : v = Json.jnum 8 := by
      rw [show (Json.jobj [("id", Json.jnum 8)]).get? "id" = some (Json.jnum 8) from rfl]
        at hv
      exact (Option.some.injEq _ _).mp hv.symm
    rw [this]
    rfl

/-- Claim C5: request ids are strictly monotonic starting at 1 — a fresh
session's first `n` requests carry ids `1, ..., n` (the k-th request
carries id k), each call bumps the counter exactly once, and within one
call every retry attempt resends the very same payload (hence the same
id) built before the loop. -/
theorem clm_c5_monotonic_ids (c : MarstekUDPClient) (n : Nat) (method : String)
    (params : Option (List (String × Json))) (events : Nat → List (Option Json)) :
    session_request_ids { c with request_id := 0 } n = List.range' 1 n ∧
    (∀ k : Nat, k < n →
      (session_request_ids { c with request_id := 0 } n).getD k 0 = k + 1) ∧
    (_send_request c method params events).1.request_id = c.request_id + 1 ∧
    (_send_request c method params events).2.2 =
      List.replicate (_send_request c method params events).2.2.length
        (sendRequest_payload (c.request_id + 1) method params) ∧
    (sendRequest_payload (c.request_id + 1) method params).get? "id" =
      some (.jnum (c.request_id + 1)) := by
  refine ⟨?_, ?_, rfl, ?_, rfl⟩
  · rw [session_request_ids_eq]
  · intro k hk
    rw [session_request_ids_eq]
    show (List.range' 1 n).getD k 0 = k + 1
    rw [List.getD_eq_getElem?_getD, List.getElem?_range' 1 1 hk]
    simp only [Option.getD_some]
    omega
  · exact runAttempts_sent (c.request_id + 1)
      (sendRequest_payload (c.request_id + 1) method params) _

/-- Witness for C5 on a fresh session of three calls. -/
theorem clm_c5_monotonic_ids_witness :
    session_request_ids { ip_address := "192.168.0.100", request_id := 0 } 3
      = List.range' 1 3 ∧
    (session_request_ids { ip_address := "192.168.0.100", request_id := 0 } 3).getD 1 0
      = 2 := by
  have h := clm_c5_monotonic_ids { ip_address := "192.168.0.100" } 3 "ES.GetStatus" none
    (fun _ => [])
  exact ⟨h.1, h.2.1 1 (by norm_num)⟩

/-- Claim C6: for every well-formed request (an id, a method string, and
optional params), decoding the encoded UTF-8 JSON bytes of that request
yields back the same `id` and the same `method`. -/
theorem clm_c6_roundtrip (request_id : Nat) (method : String)
    (params : Option (List (String × Json))) :
    ∃ decoded : Json,
      json_loads (encodeRequest request_id method params) = some decoded ∧
      decoded.get? "id" = some (.jnum request_id) ∧
      decoded.get? "method" = some (.jstr method) := by
  refine ⟨sendRequest_payload request_id method params, json_loads_dumps _, rfl, ?_⟩
  show (sendRequest_payload request_id method params).get? "method" = some (.jstr method)
  unfold sendRequest_payload Json.get?
  cases params with
  | none => simp [List.lookup]
  | some l =>
    cases l with
    | nil => simp [List.lookup]
    | cons f fs => simp [List.lookup]

end Marstek
